import Mathlib

/-!
Shallow embedding of the session-lifecycle subsystem and protocol dispatcher
of the `mcp-sse-go` repository, together with theorems settling the frozen
claims about its specification.

Conventions of the embedding:
* Go `time.Time` values are modelled as natural numbers (a wall clock respecting
  monotonicity is expressed by explicit `≤` hypotheses where it matters).
* Go byte slices are `List Nat` with an explicit `< 256` bound.
* Go maps (`map[string]*Session`) are association lists with unique keys; the
  pointer structure of the store is modelled separately (see the heap model)
  where a claim is about aliasing.
* Fallible Go functions return `Option`/`Except`; log statements are dropped
  (they do not affect results), error *messages* are kept verbatim.
-/

/-! ## Identifier generator (internal/session/store.go, SessionIDGenerator) -/

/-- Go constant `SessionIDLength = 32`: number of random bytes. -/
def sessionIDByteLen : Nat := 32

/-- The Go constant holding the literal first segment, `"sess"`, as a
character list. -/
def sessPrefixChars : List Char := ['s', 'e', 's', 's']

/-- One output character of the Go `base64.RawURLEncoding` alphabet
(`A-Z`, `a-z`, `0-9`, `-`, `_`), for a 6-bit value. -/
def b64UrlChar (n : Nat) : Char :=
  if n < 26 then Char.ofNat (65 + n)
  else if n < 52 then Char.ofNat (97 + (n - 26))
  else if n < 62 then Char.ofNat (48 + (n - 52))
  else if n = 62 then '-' else '_'

/-- Go `base64.RawURLEncoding.EncodeToString`: unpadded URL-safe base64 of a
byte list, grouping input bytes in threes. -/
def b64Encode : List Nat → List Char
  | [] => []
  | [b1] => [b64UrlChar (b1 / 4), b64UrlChar (b1 % 4 * 16)]
  | [b1, b2] =>
      [b64UrlChar (b1 / 4), b64UrlChar (b1 % 4 * 16 + b2 / 16),
       b64UrlChar (b2 % 16 * 4)]
  | b1 :: b2 :: b3 :: rest =>
      b64UrlChar (b1 / 4) :: b64UrlChar (b1 % 4 * 16 + b2 / 16) ::
      b64UrlChar (b2 % 16 * 4 + b3 / 64) :: b64UrlChar (b3 % 64) ::
      b64Encode rest

/-- Go `base64.RawURLEncoding.EncodedLen n = (n*8 + 5) / 6`. -/
def rawURLEncodedLen (n : Nat) : Nat := (n * 8 + 5) / 6

/-- Decimal digit characters of a natural number, most significant first:
the embedding of `fmt.Sprintf` with verb `d` for the (non-negative)
Unix timestamp. -/
def decimalDigits (n : Nat) : List Char :=
  if _h : n < 10 then [Char.ofNat (48 + n)]
  else decimalDigits (n / 10) ++ [Char.ofNat (48 + n % 10)]
decreasing_by
  exact Nat.div_lt_self (by omega) (by omega)

/-- Go `strings.Split(s, ".")`: dot-separated segments of a character list.
Always returns at least one segment. -/
def splitOnDot : List Char → List (List Char)
  | [] => [[]]
  | c :: rest =>
    match splitOnDot rest with
    | [] => [[]]
    | s :: ss => if c = '.' then [] :: s :: ss else (c :: s) :: ss

/-- Character class of the Go regular expression `[A-Za-z0-9_-]` used by
`SessionIDGenerator.Validate` for the random segment. -/
def validB64Char (c : Char) : Bool :=
  c.isAlpha || c.isDigit || c == '-' || c == '_'

/-- `SessionIDGenerator.Validate` (internal/session/store.go): structural
validation of a candidate session id; `none` means valid, `some msg` carries
the Go error message. -/
def validateID (cs : List Char) : Option String :=
  if cs.isEmpty then some "empty session ID"
  else
    match splitOnDot cs with
    | [p0, p1, p2] =>
      if p0 ≠ sessPrefixChars then some "invalid session ID prefix"
      else if p1.isEmpty || !(p1.all Char.isDigit) then
        some "invalid timestamp in session ID"
      else if p2.isEmpty then some "missing random part in session ID"
      else if !(p2.all validB64Char) then
        some "invalid characters in session ID"
      else if p2.length < rawURLEncodedLen sessionIDByteLen then
        some "session ID random part too short"
      else none
    | _ => some "invalid session ID format"

/-- `SessionIDGenerator.Generate` (internal/session/store.go), with the entropy
source and clock made explicit: `bytes` are the 32 random bytes drawn from
`crypto/rand` and `ts` the Unix timestamp; the output is
`"sess" ++ "." ++ decimal ts ++ "." ++ base64url bytes`. -/
def generateID (ts : Nat) (bytes : List Nat) : List Char :=
  sessPrefixChars ++ '.' :: decimalDigits ts ++ '.' :: b64Encode bytes

/-! ### Generator lemmas -/

theorem splitOnDot_ne_nil (cs : List Char) : splitOnDot cs ≠ [] := by
  induction cs with
  | nil => simp [splitOnDot]
  | cons c rest ih =>
    simp only [splitOnDot]
    cases h : splitOnDot rest with
    | nil => simp
    | cons s ss =>
      by_cases hc : c = '.' <;> simp [hc]

theorem splitOnDot_no_dot (cs : List Char) (h : '.' ∉ cs) :
    splitOnDot cs = [cs] := by
  induction cs with
  | nil => rfl
  | cons c rest ih =>
    have hc : c ≠ '.' := fun hc => h (hc ▸ List.mem_cons_self c rest)
    have hr : '.' ∉ rest := fun hm => h (List.mem_cons_of_mem _ hm)
    simp only [splitOnDot, ih hr]
    simp [hc]

theorem splitOnDot_append (xs ys : List Char) (h : '.' ∉ xs) :
    splitOnDot (xs ++ '.' :: ys) = xs :: splitOnDot ys := by
  induction xs with
  | nil =>
    simp only [List.nil_append, splitOnDot]
    cases hy : splitOnDot ys with
    | nil => exact absurd hy (splitOnDot_ne_nil ys)
    | cons s ss => simp
  | cons x rest ih =>
    have hx : x ≠ '.' := fun hx => h (hx ▸ List.mem_cons_self x rest)
    have hr : '.' ∉ rest := fun hm => h (List.mem_cons_of_mem _ hm)
    show splitOnDot (x :: (rest ++ '.' :: ys)) = _
    rw [splitOnDot, ih hr]
    simp [hx]

theorem decimalDigits_ne_nil (n : Nat) : decimalDigits n ≠ [] := by
  rw [decimalDigits]
  split <;> simp

theorem digitChar_isDigit {d : Nat} (h : d < 10) :
    (Char.ofNat (48 + d)).isDigit = true := by
  interval_cases d <;> decide

theorem decimalDigits_all_digit (n : Nat) :
    ∀ c ∈ decimalDigits n, c.isDigit = true := by
  induction n using Nat.strong_induction_on with
  | _ n ih =>
    intro c hc
    rw [decimalDigits] at hc
    split at hc
    · next h =>
      simp only [List.mem_singleton] at hc
      exact hc ▸ digitChar_isDigit h
    · next h =>
      rcases List.mem_append.mp hc with h1 | h2
      · exact ih (n / 10) (Nat.div_lt_self (by omega) (by omega)) c h1
      · simp only [List.mem_singleton] at h2
        exact h2 ▸ digitChar_isDigit (Nat.mod_lt _ (by omega))

theorem isDigit_ne_dot {c : Char} (h : c.isDigit = true) : c ≠ '.' := by
  intro hc
  rw [hc] at h
  exact absurd h (by decide)

theorem b64UrlChar_valid {n : Nat} (h : n < 64) :
    validB64Char (b64UrlChar n) = true := by
  interval_cases n <;> decide

theorem b64Encode_all_valid (bs : List Nat) (hb : ∀ b ∈ bs, b < 256) :
    ∀ c ∈ b64Encode bs, validB64Char c = true := by
  induction bs using b64Encode.induct with
  | case1 => intro c hc; simp [b64Encode] at hc
  | case2 b1 =>
    intro c hc
    have h1 : b1 < 256 := hb b1 (by simp)
    simp only [b64Encode, List.mem_cons, List.mem_singleton,
      List.not_mem_nil, or_false] at hc
    rcases hc with h | h <;>
      exact h ▸ b64UrlChar_valid (by omega)
  | case3 b1 b2 =>
    intro c hc
    have h1 : b1 < 256 := hb b1 (by simp)
    have h2 : b2 < 256 := hb b2 (by simp)
    simp only [b64Encode, List.mem_cons, List.not_mem_nil, or_false] at hc
    rcases hc with h | h | h <;>
      exact h ▸ b64UrlChar_valid (by omega)
  | case4 b1 b2 b3 rest ih =>
    intro c hc
    have h1 : b1 < 256 := hb b1 (by simp)
    have h2 : b2 < 256 := hb b2 (by simp)
    have h3 : b3 < 256 := hb b3 (by simp)
    have hrest : ∀ b ∈ rest, b < 256 := fun b hm => hb b (by simp [hm])
    simp only [b64Encode, List.mem_cons] at hc
    rcases hc with h | h | h | h | h
    · exact h ▸ b64UrlChar_valid (by omega)
    · exact h ▸ b64UrlChar_valid (by omega)
    · exact h ▸ b64UrlChar_valid (by omega)
    · exact h ▸ b64UrlChar_valid (by omega)
    · exact ih hrest c h

theorem b64Encode_length (bs : List Nat) :
    (b64Encode bs).length = rawURLEncodedLen bs.length := by
  induction bs using b64Encode.induct with
  | case1 => simp [b64Encode, rawURLEncodedLen]
  | case2 b1 => simp [b64Encode, rawURLEncodedLen]
  | case3 b1 b2 => simp [b64Encode, rawURLEncodedLen]
  | case4 b1 b2 b3 rest ih =>
    simp only [b64Encode, List.length_cons, ih, rawURLEncodedLen]
    omega

theorem validB64_ne_dot {c : Char} (h : validB64Char c = true) : c ≠ '.' := by
  intro hc
  rw [hc] at h
  exact absurd h (by decide)

theorem splitOnDot_generateID (ts : Nat) (bytes : List Nat)
    (hb : ∀ b ∈ bytes, b < 256) :
    splitOnDot (generateID ts bytes) =
      [sessPrefixChars, decimalDigits ts, b64Encode bytes] := by
  have hpre : '.' ∉ sessPrefixChars := by decide
  have hdec : '.' ∉ decimalDigits ts := fun hm =>
    isDigit_ne_dot (decimalDigits_all_digit ts '.' hm) rfl
  have hb64 : '.' ∉ b64Encode bytes := fun hm =>
    validB64_ne_dot (b64Encode_all_valid bytes hb '.' hm) rfl
  have h1 : splitOnDot (decimalDigits ts ++ '.' :: b64Encode bytes) =
      decimalDigits ts :: splitOnDot (b64Encode bytes) :=
    splitOnDot_append _ _ hdec
  have hform : generateID ts bytes =
      sessPrefixChars ++ '.' :: (decimalDigits ts ++ '.' :: b64Encode bytes) := by
    simp [generateID, List.append_assoc]
  rw [hform, splitOnDot_append _ _ hpre, h1, splitOnDot_no_dot _ hb64]

/-- C3: every identifier produced by `Generate` passes `Validate`:
the output has exactly three dot-separated segments — the literal prefix,
an all-decimal timestamp segment, and a URL-safe base64 random segment whose
length meets the 32-byte entropy bound — so `validateID` returns no error. -/
theorem validate_generate_ok (ts : Nat) (bytes : List Nat)
    (h32 : bytes.length = sessionIDByteLen) (hb : ∀ b ∈ bytes, b < 256) :
    splitOnDot (generateID ts bytes) =
      [sessPrefixChars, decimalDigits ts, b64Encode bytes] ∧
    (b64Encode bytes).length = rawURLEncodedLen sessionIDByteLen ∧
    validateID (generateID ts bytes) = none := by
  have hsplit := splitOnDot_generateID ts bytes hb
  have hlen : (b64Encode bytes).length = rawURLEncodedLen sessionIDByteLen := by
    rw [b64Encode_length, h32]
  refine ⟨hsplit, hlen, ?_⟩
  have hne : ¬ (generateID ts bytes).isEmpty := by
    simp [generateID, sessPrefixChars]
  rw [validateID, if_neg hne, hsplit]
  have hdigits : ¬ ((decimalDigits ts).isEmpty ||
      !((decimalDigits ts).all Char.isDigit)) := by
    simp only [Bool.or_eq_true, Bool.not_eq_true', List.all_eq_true,
      not_or]
    refine ⟨?_, ?_⟩
    · simpa [List.isEmpty_iff] using decimalDigits_ne_nil ts
    · simp only [Bool.not_eq_false, List.all_eq_true]
      exact decimalDigits_all_digit ts
  have hb64all : (b64Encode bytes).all validB64Char = true := by
    simp only [List.all_eq_true]
    exact b64Encode_all_valid bytes hb
  have hb64ne : ¬ (b64Encode bytes).isEmpty := by
    simp only [List.isEmpty_iff]
    intro hnil
    have := hlen
    rw [hnil] at this
    simp [rawURLEncodedLen, sessionIDByteLen] at this
  simp only [ne_eq, not_true_eq_false, if_false, hdigits, hb64ne, hb64all,
    Bool.not_true, if_neg, hlen]
  simp

/-- Witness for `validate_generate_ok` at a concrete timestamp and byte list. -/
theorem validate_generate_ok_witness :
    (List.replicate 32 0).length = sessionIDByteLen ∧
    validateID (generateID 5 (List.replicate 32 0)) = none := by
  refine ⟨by decide, ?_⟩
  exact (validate_generate_ok 5 (List.replicate 32 0) (by decide)
    (fun b hb => by simp at hb; omega)).2.2

/-! ## Session data model (Session, ClientInfo) and value-level MemoryStore -/

/-- The `Session` record (timestamps as naturals, `ClientInfo` inlined). -/
structure SessionR where
  id : String
  createdAt : Nat
  lastAccess : Nat
  expiresAt : Nat
  remoteAddr : String
  userAgent : String
deriving DecidableEq

/-- `Session.IsExpired`: `time.Now().After(s.ExpiresAt)`, i.e. strictly past. -/
def sessionIsExpired (s : SessionR) (now : Nat) : Bool :=
  decide (s.expiresAt < now)

/-- `Session.Refresh(timeout)`: sets `LastAccess = now` and
`ExpiresAt = now + timeout`. -/
def sessionRefresh (s : SessionR) (now timeout : Nat) : SessionR :=
  { s with lastAccess := now, expiresAt := now + timeout }

/-- The in-memory store map from id to `*Session`, value-level view:
an association list from id to record. -/
abbrev Store := List (String × SessionR)

/-- `MemoryStore.Get`: lookup; `none` embeds the NotFound error. -/
def memGet (st : Store) (k : String) : Option SessionR :=
  (st.find? (fun p => p.1 == k)).map (·.2)

/-- `MemoryStore.Delete`: removes the entry if present; the boolean is
`true` on success and `false` for the NotFound failure. -/
def memDelete (st : Store) (k : String) : Store × Bool :=
  if (st.find? (fun p => p.1 == k)).isSome then
    (st.filter (fun p => !(p.1 == k)), true)
  else (st, false)

/-- `MemoryStore.Set`: map assignment (insert or overwrite). -/
def memSet (st : Store) (k : String) (v : SessionR) : Store :=
  (k, v) :: st.filter (fun p => !(p.1 == k))

/-- `MemoryStore.List`: independent copies of all records. -/
def memList (st : Store) : List SessionR := st.map (·.2)

/-- `MemoryStore.Count`. -/
def memCount (st : Store) : Nat := st.length

/-- Store invariant: each entry is keyed by the id of its record (maintained by the
manager, which always calls `Set(session.ID, session)`). -/
def KeysMatch (st : Store) : Prop := ∀ p ∈ st, p.2.id = p.1

/-- Store invariant: keys are unique (a Go map cannot hold duplicates). -/
def NodupKeys (st : Store) : Prop := (st.map (·.1)).Nodup

/-! ## Session errors (internal/session/errors.go) -/

/-- `SessionError`, by error-code constructor; payloads carry the data
interpolated into the Go message. -/
inductive SessErr where
  | invalid (msg : String)
  | notFound (sid : String)
  | expired (sid : String)
  | generation
  | storage (op : String)
  | concurrency
deriving DecidableEq

/-- The `Code` field of each `SessionError` (the Go string constants). -/
def sessErrCode : SessErr → String
  | .invalid _ => "SESSION_INVALID"
  | .notFound _ => "SESSION_NOT_FOUND"
  | .expired _ => "SESSION_EXPIRED"
  | .generation => "SESSION_GENERATION_FAILED"
  | .storage _ => "SESSION_STORAGE_ERROR"
  | .concurrency => "SESSION_CONCURRENCY_ERROR"

/-! ## Session manager (internal/session/manager.go) -/

/-- `DefaultSessionManager.ValidateSession`: format check, lookup, expiry check
with best-effort deletion (a deletion failure is only logged: the result is the
first component of the deletion result regardless of its success flag). Returns the
possibly-updated store and the outcome. -/
def validateSession (st : Store) (sid : String) (now : Nat) :
    Store × Except SessErr SessionR :=
  match validateID sid.data with
  | some msg => (st, .error (.invalid msg))
  | none =>
    match memGet st sid with
    | none => (st, .error (.notFound sid))
    | some s =>
      if sessionIsExpired s now then
        ((memDelete st sid).1, .error (.expired sid))
      else (st, .ok s)

/-- `DefaultSessionManager.RefreshSession`: validate, then refresh the
timestamps and write the record back. -/
def refreshSession (st : Store) (sid : String) (now timeout : Nat) :
    Store × Except SessErr Unit :=
  match validateSession st sid now with
  | (st1, .error e) => (st1, .error e)
  | (st1, .ok s) => (memSet st1 sid (sessionRefresh s now timeout), .ok ())

/-- One iteration of the deletion loop in
`DefaultSessionManager.CleanupExpiredSessions`: a failed delete is skipped
(`continue`), a successful one increments the count. -/
def deleteFold (acc : Store × Nat) (sid : String) : Store × Nat :=
  let d := memDelete acc.1 sid
  if d.2 then (d.1, acc.2 + 1) else (acc.1, acc.2)

/-- `DefaultSessionManager.CleanupExpiredSessions`: list all sessions, collect
the ids of those with `now.After(expiresAt)`, delete each, and return the new
store with the number successfully removed. -/
def cleanupExpiredSessions (st : Store) (now : Nat) : Store × Nat :=
  (((memList st).filter (fun s => sessionIsExpired s now)).map (·.id)).foldl
    deleteFold (st, 0)

/-! ### Store lemmas -/

theorem memGet_eq_some_iff {st : Store} (hnd : NodupKeys st) {k : String}
    {s : SessionR} : memGet st k = some s ↔ (k, s) ∈ st := by
  induction st with
  | nil => simp [memGet]
  | cons p rest ih =>
    obtain ⟨k1, s1⟩ := p
    have hnd' : NodupKeys rest := by
      simpa [NodupKeys] using (List.nodup_cons.mp hnd).2
    have hk : k1 ∉ rest.map (·.1) := by
      simpa [NodupKeys] using (List.nodup_cons.mp hnd).1
    by_cases hpk : k1 = k
    · subst hpk
      constructor
      · intro hs
        have hs1 : s1 = s := by
          simpa [memGet, List.find?_cons] using hs
        cases hs1
        exact List.mem_cons_self _ _
      · intro hs
        rcases List.mem_cons.mp hs with h | h
        · cases h
          simp [memGet, List.find?_cons]
        · exact absurd (List.mem_map.mpr ⟨(k1, s), h, rfl⟩) hk
    · have hbeq : (k1 == k) = false := beq_eq_false_iff_ne.mpr hpk
      have hstep : memGet ((k1, s1) :: rest) k = memGet rest k := by
        simp [memGet, List.find?_cons, hbeq]
      rw [hstep, ih hnd', List.mem_cons]
      constructor
      · exact Or.inr
      · rintro (h | h)
        · injection h with h1 _
          exact absurd h1.symm hpk
        · exact h

theorem memGet_isSome_of_key {st : Store} {k : String}
    (h : ∃ p ∈ st, p.1 = k) : (st.find? (fun p => p.1 == k)).isSome := by
  rcases h with ⟨p, hp, hk⟩
  exact List.find?_isSome.mpr ⟨p, hp, by simp [hk]⟩

theorem nodupKeys_filter {st : Store} (hnd : NodupKeys st)
    (q : String × SessionR → Bool) : NodupKeys (st.filter q) := by
  have hsub : List.Sublist ((st.filter q).map (·.1)) (st.map (·.1)) :=
    (List.filter_sublist st).map _
  exact hnd.sublist hsub

theorem foldl_deleteFold (ids : List String) :
    ∀ (st : Store) (c : Nat), (∀ k ∈ ids, ∃ p ∈ st, p.1 = k) → ids.Nodup →
    ids.foldl deleteFold (st, c) =
      (st.filter (fun p => !(ids.contains p.1)), c + ids.length) := by
  induction ids with
  | nil => intro st c _ _; simp
  | cons k rest ih =>
    intro st c hpres hnd
    have hsome := memGet_isSome_of_key (hpres k (List.mem_cons_self k rest))
    have hstep : deleteFold (st, c) k =
        (st.filter (fun p => !(p.1 == k)), c + 1) := by
      simp [deleteFold, memDelete, hsome]
    have hknotin : k ∉ rest := (List.nodup_cons.mp hnd).1
    have hpres' : ∀ k2 ∈ rest, ∃ p ∈ st.filter (fun p => !(p.1 == k)), p.1 = k2 := by
      intro k2 hk2
      rcases hpres k2 (List.mem_cons_of_mem _ hk2) with ⟨p, hp, hpk⟩
      refine ⟨p, List.mem_filter.mpr ⟨hp, ?_⟩, hpk⟩
      have : k2 ≠ k := fun h => hknotin (h ▸ hk2)
      simp [hpk, this]
    have hnd' : rest.Nodup := (List.nodup_cons.mp hnd).2
    rw [List.foldl_cons, hstep, ih _ _ hpres' hnd', List.filter_filter]
    simp only [Prod.mk.injEq]
    constructor
    · apply List.filter_congr
      intro p _
      by_cases h1 : p.1 == k <;> by_cases h2 : rest.contains p.1 <;>
        simp_all [List.contains_cons]
    · simp only [List.length_cons]
      omega

theorem memGet_filter_self (st : Store) (k : String) :
    memGet (st.filter (fun p => !(p.1 == k))) k = none := by
  induction st with
  | nil => rfl
  | cons p rest ih =>
    by_cases h : (p.1 == k) = true
    · simp [List.filter_cons, h]
      exact ih
    · simp only [List.filter_cons, h]
      simp only [Bool.not_false, if_pos]
      simp [memGet, List.find?_cons, h]

theorem memGet_memSet_self (st : Store) (k : String) (v : SessionR) :
    memGet (memSet st k v) k = some v := by
  simp [memGet, memSet, List.find?_cons]

theorem find?_isSome_of_memGet {st : Store} {k : String} {s : SessionR}
    (h : memGet st k = some s) : (st.find? (fun p => p.1 == k)).isSome := by
  unfold memGet at h
  cases hf : st.find? (fun p => p.1 == k) with
  | none => rw [hf] at h; simp at h
  | some p => simp [hf]

/-- C2: the four-way contract of `ValidateSession`: invalid format fails
`InvalidFormat`; absent id fails `NotFound`; an expired session is deleted
(best-effort) and fails `Expired`, after which `Get` on the store fails
`NotFound`; otherwise the stored session is returned with no field changed
and the store untouched. -/
theorem validateSession_contract (st : Store) (sid : String) (now : Nat) :
    (∀ msg, validateID sid.data = some msg →
      validateSession st sid now = (st, .error (.invalid msg))) ∧
    (validateID sid.data = none → memGet st sid = none →
      validateSession st sid now = (st, .error (.notFound sid))) ∧
    (∀ s, validateID sid.data = none → memGet st sid = some s →
      s.expiresAt < now →
      validateSession st sid now =
        ((memDelete st sid).1, .error (.expired sid)) ∧
      memGet (validateSession st sid now).1 sid = none) ∧
    (∀ s, validateID sid.data = none → memGet st sid = some s →
      ¬ s.expiresAt < now →
      validateSession st sid now = (st, .ok s)) := by
  refine ⟨?_, ?_, ?_, ?_⟩
  · intro msg hmsg
    simp [validateSession, hmsg]
  · intro hv hg
    simp [validateSession, hv, hg]
  · intro s hv hg he
    have heq : validateSession st sid now =
        ((memDelete st sid).1, .error (.expired sid)) := by
      simp [validateSession, hv, hg, sessionIsExpired, he]
    refine ⟨heq, ?_⟩
    rw [heq]
    have hsome := find?_isSome_of_memGet hg
    simp only [memDelete, hsome, if_pos]
    exact memGet_filter_self st sid
  · intro s hv hg he
    simp [validateSession, hv, hg, sessionIsExpired, he]

/-- Witness for `validateSession_contract`: a stored session whose expiry has
passed is deleted and reported expired, and the follow-up lookup misses. -/
theorem validateSession_contract_witness :
    validateSession
        [("sess.5.AAAAAAAAAAAAAAAAAAAAAAAAAAAAAAAAAAAAAAAAAAA",
          ⟨"sess.5.AAAAAAAAAAAAAAAAAAAAAAAAAAAAAAAAAAAAAAAAAAA",
           0, 0, 10, "127.0.0.1:9", "tc"⟩)]
        "sess.5.AAAAAAAAAAAAAAAAAAAAAAAAAAAAAAAAAAAAAAAAAAA" 100 =
      ((memDelete
          [("sess.5.AAAAAAAAAAAAAAAAAAAAAAAAAAAAAAAAAAAAAAAAAAA",
            ⟨"sess.5.AAAAAAAAAAAAAAAAAAAAAAAAAAAAAAAAAAAAAAAAAAA",
             0, 0, 10, "127.0.0.1:9", "tc"⟩)]
          "sess.5.AAAAAAAAAAAAAAAAAAAAAAAAAAAAAAAAAAAAAAAAAAA").1,
       .error (.expired "sess.5.AAAAAAAAAAAAAAAAAAAAAAAAAAAAAAAAAAAAAAAAAAA")) ∧
    memGet
      (validateSession
        [("sess.5.AAAAAAAAAAAAAAAAAAAAAAAAAAAAAAAAAAAAAAAAAAA",
          ⟨"sess.5.AAAAAAAAAAAAAAAAAAAAAAAAAAAAAAAAAAAAAAAAAAA",
           0, 0, 10, "127.0.0.1:9", "tc"⟩)]
        "sess.5.AAAAAAAAAAAAAAAAAAAAAAAAAAAAAAAAAAAAAAAAAAA" 100).1
      "sess.5.AAAAAAAAAAAAAAAAAAAAAAAAAAAAAAAAAAAAAAAAAAA" = none := by
  exact (validateSession_contract _ _ 100).2.2.1
    ⟨"sess.5.AAAAAAAAAAAAAAAAAAAAAAAAAAAAAAAAAAAAAAAAAAA",
     0, 0, 10, "127.0.0.1:9", "tc"⟩
    (by decide) (by decide) (by decide)

theorem validateSession_ok_eq {st : Store} {sid : String} {now : Nat}
    {s : SessionR} (h : (validateSession st sid now).2 = Except.ok s) :
    validateSession st sid now = (st, Except.ok s) := by
  unfold validateSession at h ⊢
  cases hv : validateID sid.data with
  | some msg =>
    rw [hv] at h
    simp at h
  | none =>
    rw [hv] at h
    cases hg : memGet st sid with
    | none =>
      rw [hg] at h
      simp at h
    | some s0 =>
      rw [hg] at h
      by_cases he : sessionIsExpired s0 now
      · simp [he] at h
      · simp [he] at h
        subst h
        simp [he]

/-- C4: a successful `RefreshSession` never moves `expiresAt` or
`lastAccessAt` backwards: given a clock that has not run backwards since the
session was last written (`lastAccess ≤ now` and `expiresAt ≤ now + timeout`,
which hold for any record produced with the same configured timeout), the
record written back has `expiresAt` and `lastAccess` at least the old
values. -/
theorem refreshSession_monotone (st : Store) (sid : String)
    (now timeout : Nat) (s : SessionR)
    (hv : (validateSession st sid now).2 = Except.ok s)
    (hla : s.lastAccess ≤ now) (hex : s.expiresAt ≤ now + timeout) :
    (refreshSession st sid now timeout).2 = Except.ok () ∧
    memGet (refreshSession st sid now timeout).1 sid =
      some (sessionRefresh s now timeout) ∧
    s.expiresAt ≤ (sessionRefresh s now timeout).expiresAt ∧
    s.lastAccess ≤ (sessionRefresh s now timeout).lastAccess := by
  have hfull := validateSession_ok_eq hv
  unfold refreshSession
  rw [hfull]
  refine ⟨rfl, memGet_memSet_self st sid _, ?_, ?_⟩
  · simpa [sessionRefresh] using hex
  · simpa [sessionRefresh] using hla

/-- Witness for `refreshSession_monotone` on a concrete live session. -/
theorem refreshSession_monotone_witness :
    (refreshSession
        [("sess.5.AAAAAAAAAAAAAAAAAAAAAAAAAAAAAAAAAAAAAAAAAAA",
          ⟨"sess.5.AAAAAAAAAAAAAAAAAAAAAAAAAAAAAAAAAAAAAAAAAAA",
           0, 0, 50, "127.0.0.1:9", "tc"⟩)]
        "sess.5.AAAAAAAAAAAAAAAAAAAAAAAAAAAAAAAAAAAAAAAAAAA" 40 100).2 =
      Except.ok () ∧
    memGet
      (refreshSession
        [("sess.5.AAAAAAAAAAAAAAAAAAAAAAAAAAAAAAAAAAAAAAAAAAA",
          ⟨"sess.5.AAAAAAAAAAAAAAAAAAAAAAAAAAAAAAAAAAAAAAAAAAA",
           0, 0, 50, "127.0.0.1:9", "tc"⟩)]
        "sess.5.AAAAAAAAAAAAAAAAAAAAAAAAAAAAAAAAAAAAAAAAAAA" 40 100).1
      "sess.5.AAAAAAAAAAAAAAAAAAAAAAAAAAAAAAAAAAAAAAAAAAA" =
      some (sessionRefresh
        ⟨"sess.5.AAAAAAAAAAAAAAAAAAAAAAAAAAAAAAAAAAAAAAAAAAA",
         0, 0, 50, "127.0.0.1:9", "tc"⟩ 40 100) ∧
    (⟨"sess.5.AAAAAAAAAAAAAAAAAAAAAAAAAAAAAAAAAAAAAAAAAAA",
      0, 0, 50, "127.0.0.1:9", "tc"⟩ : SessionR).expiresAt ≤
      (sessionRefresh
        ⟨"sess.5.AAAAAAAAAAAAAAAAAAAAAAAAAAAAAAAAAAAAAAAAAAA",
         0, 0, 50, "127.0.0.1:9", "tc"⟩ 40 100).expiresAt ∧
    (⟨"sess.5.AAAAAAAAAAAAAAAAAAAAAAAAAAAAAAAAAAAAAAAAAAA",
      0, 0, 50, "127.0.0.1:9", "tc"⟩ : SessionR).lastAccess ≤
      (sessionRefresh
        ⟨"sess.5.AAAAAAAAAAAAAAAAAAAAAAAAAAAAAAAAAAAAAAAAAAA",
         0, 0, 50, "127.0.0.1:9", "tc"⟩ 40 100).lastAccess := by
  exact refreshSession_monotone _ _ 40 100
    ⟨"sess.5.AAAAAAAAAAAAAAAAAAAAAAAAAAAAAAAAAAAAAAAAAAA",
     0, 0, 50, "127.0.0.1:9", "tc"⟩
    (by rfl) (by decide) (by decide)

theorem contains_eq_true_iff (l : List String) (a : String) :
    l.contains a = true ↔ a ∈ l := by
  induction l with
  | nil => simp
  | cons x xs ih =>
    rw [List.contains_cons]
    simp [ih]

theorem cleanupExpiredSessions_eq (st : Store) (now : Nat)
    (hk : KeysMatch st) (hnd : NodupKeys st) :
    cleanupExpiredSessions st now =
      (st.filter (fun p => !(sessionIsExpired p.2 now)),
       (st.filter (fun p => sessionIsExpired p.2 now)).length) := by
  have hids : ((memList st).filter (fun s => sessionIsExpired s now)).map (·.id)
      = (st.filter (fun p => sessionIsExpired p.2 now)).map (·.1) := by
    rw [memList, List.filter_map, List.map_map]
    apply List.map_congr_left
    intro p hp
    exact hk p (List.mem_of_mem_filter hp)
  unfold cleanupExpiredSessions
  rw [hids]
  have hpres : ∀ k ∈ (st.filter (fun p => sessionIsExpired p.2 now)).map (·.1),
      ∃ p ∈ st, p.1 = k := by
    intro k hkmem
    rcases List.mem_map.mp hkmem with ⟨p, hp, rfl⟩
    exact ⟨p, List.mem_of_mem_filter hp, rfl⟩
  have hndids :
      ((st.filter (fun p => sessionIsExpired p.2 now)).map (·.1)).Nodup :=
    hnd.sublist ((List.filter_sublist st).map _)
  rw [foldl_deleteFold _ _ _ hpres hndids]
  have hcont : ∀ p ∈ st,
      ((st.filter (fun p => sessionIsExpired p.2 now)).map (·.1)).contains p.1
        = sessionIsExpired p.2 now := by
    intro p hp
    by_cases hqp : sessionIsExpired p.2 now = true
    · rw [hqp]
      exact (contains_eq_true_iff _ _).mpr
        (List.mem_map.mpr ⟨p, List.mem_filter.mpr ⟨hp, hqp⟩, rfl⟩)
    · cases hcb : ((st.filter (fun p => sessionIsExpired p.2 now)).map
          (·.1)).contains p.1 with
      | false => simp [hqp]
      | true =>
        exfalso
        rcases List.mem_map.mp ((contains_eq_true_iff _ _).mp hcb) with
          ⟨p2, hp2, hpp⟩
        have hq2 : sessionIsExpired p2.2 now = true := (List.mem_filter.mp hp2).2
        have heqp : p2 = p :=
          List.inj_on_of_nodup_map hnd (List.mem_of_mem_filter hp2) hp hpp
        rw [heqp] at hq2
        exact hqp hq2
  simp only [Prod.mk.injEq]
  constructor
  · apply List.filter_congr
    intro p hp
    rw [hcont p hp]
  · rw [List.length_map]
    simp

/-- C5: `CleanupExpiredSessions` removes exactly the sessions whose
`expiresAt` precedes the sweep time and leaves every other entry untouched;
the returned count equals the number removed (one per successful delete, a
failed delete being skipped); and a second sweep with no new expirations in
between removes 0. -/
theorem cleanupExpiredSessions_spec (st : Store) (now : Nat)
    (hk : KeysMatch st) (hnd : NodupKeys st) :
    (∀ sid s, memGet (cleanupExpiredSessions st now).1 sid = some s ↔
      (memGet st sid = some s ∧ ¬ s.expiresAt < now)) ∧
    (cleanupExpiredSessions st now).2 =
      ((memList st).filter (fun s => sessionIsExpired s now)).length ∧
    (∀ now2, (∀ sid s, memGet (cleanupExpiredSessions st now).1 sid = some s →
        ¬ s.expiresAt < now2) →
      (cleanupExpiredSessions (cleanupExpiredSessions st now).1 now2).2 = 0) := by
  have hmain := cleanupExpiredSessions_eq st now hk hnd
  have hndf := nodupKeys_filter hnd (fun p => !(sessionIsExpired p.2 now))
  refine ⟨?_, ?_, ?_⟩
  · intro sid s
    rw [hmain]
    rw [memGet_eq_some_iff hndf, memGet_eq_some_iff hnd (k := sid) (s := s),
      List.mem_filter]
    simp [sessionIsExpired]
  · rw [hmain]
    rw [memList, List.filter_map, List.length_map]
    rfl
  · intro now2 hno
    have hkf : KeysMatch (cleanupExpiredSessions st now).1 := by
      rw [hmain]
      intro p hp
      exact hk p (List.mem_of_mem_filter hp)
    have hndf2 : NodupKeys (cleanupExpiredSessions st now).1 := by
      rw [hmain]; exact hndf
    rw [cleanupExpiredSessions_eq _ now2 hkf hndf2]
    simp only
    rw [List.length_eq_zero]
    apply List.filter_eq_nil_iff.mpr
    intro p hp
    have hmem : memGet (cleanupExpiredSessions st now).1 p.1 = some p.2 := by
      rw [memGet_eq_some_iff hndf2]
      exact hp
    have hne := hno p.1 p.2 hmem
    simp [sessionIsExpired]
    omega

/-- Witness for `cleanupExpiredSessions_spec`: the count for a store holding
one expired session. -/
theorem cleanupExpiredSessions_spec_witness :
    (cleanupExpiredSessions
        [("sess.5.AAAAAAAAAAAAAAAAAAAAAAAAAAAAAAAAAAAAAAAAAAA",
          ⟨"sess.5.AAAAAAAAAAAAAAAAAAAAAAAAAAAAAAAAAAAAAAAAAAA",
           0, 0, 10, "127.0.0.1:9", "tc"⟩)] 100).2 =
      ((memList
          [("sess.5.AAAAAAAAAAAAAAAAAAAAAAAAAAAAAAAAAAAAAAAAAAA",
            ⟨"sess.5.AAAAAAAAAAAAAAAAAAAAAAAAAAAAAAAAAAAAAAAAAAA",
             0, 0, 10, "127.0.0.1:9", "tc"⟩)]).filter
        (fun s => sessionIsExpired s 100)).length := by
  exact (cleanupExpiredSessions_spec _ 100
    (by unfold KeysMatch; decide) (by unfold NodupKeys; decide)).2.1

/-! ## Session gate middleware (internal/session/store.go, SessionMiddleware) -/

/-- `MiddlewareConfig`. -/
structure MWConfig where
  requireSession : Bool
  excludedPaths : List String
  headerName : String
deriving DecidableEq

/-- `DefaultMiddlewareConfig()`. -/
def defaultMWConfig : MWConfig :=
  ⟨true,
   ["/health", "/config", "/static/", "/.mcp/ide-config", "/sessions",
    "/sse", "/metrics"],
   "Mcp-Session-Id"⟩

/-- `SessionMiddleware.isPathExcluded`: prefix match over the exclusion
list. -/
def isPathExcluded (cfg : MWConfig) (path : String) : Bool :=
  cfg.excludedPaths.any (fun ex => path.startsWith ex)

/-- What the gate does with a request: pass it to the next handler (with or
without a session attached to the context), or answer it with an error
status. -/
inductive GateOutcome where
  | passNoSession
  | passWithSession (s : SessionR)
  | rejectMissingHeader (status : Nat)
  | rejectError (status : Nat) (e : SessErr)
deriving DecidableEq

/-- The status-code switch of `SessionMiddleware.Handler`: start from 401 and
override per session error code (`SESSION_INVALID` → 400; `SESSION_NOT_FOUND`
and `SESSION_EXPIRED` → 401; any other code → 500). -/
def statusForSessionError : SessErr → Nat
  | .invalid _ => 400
  | .notFound _ => 401
  | .expired _ => 401
  | _ => 500

/-- `SessionMiddleware.Handler` for one request: exclusion and OPTIONS
pass-through, header extraction (`""` is how Go reports an absent header),
validation with the status mapping, then a best-effort refresh (its failure
never blocks the request) before passing the validated session on. -/
def gateHandle (cfg : MWConfig) (st : Store) (now timeout : Nat)
    (path : String) (isOptionsReq : Bool) (headerVal : String) :
    Store × GateOutcome :=
  if isPathExcluded cfg path then (st, .passNoSession)
  else if isOptionsReq then (st, .passNoSession)
  else if headerVal = "" then
    if cfg.requireSession then (st, .rejectMissingHeader 400)
    else (st, .passNoSession)
  else
    match validateSession st headerVal now with
    | (st1, .error e) => (st1, .rejectError (statusForSessionError e) e)
    | (st1, .ok s) =>
      ((refreshSession st1 headerVal now timeout).1, .passWithSession s)

/-- C8: the decision table of the gate for a non-excluded, non-preflight request:
an absent header is rejected with client-error 400 exactly when sessions are
required and passes through with no session otherwise; a present header that
fails validation is rejected with the status mapped from the failure kind —
malformed id 400, not-found or expired 401, and any other failure 500. -/
theorem gateHandle_contract (cfg : MWConfig) (st : Store) (now timeout : Nat)
    (path : String) (headerVal : String)
    (hexc : isPathExcluded cfg path = false) :
    (headerVal = "" → cfg.requireSession = true →
      gateHandle cfg st now timeout path false headerVal =
        (st, .rejectMissingHeader 400)) ∧
    (headerVal = "" → cfg.requireSession = false →
      gateHandle cfg st now timeout path false headerVal =
        (st, .passNoSession)) ∧
    (∀ st1 e, headerVal ≠ "" →
      validateSession st headerVal now = (st1, .error e) →
      gateHandle cfg st now timeout path false headerVal =
        (st1, .rejectError (statusForSessionError e) e)) ∧
    (∀ m, statusForSessionError (.invalid m) = 400) ∧
    (∀ i, statusForSessionError (.notFound i) = 401) ∧
    (∀ i, statusForSessionError (.expired i) = 401) ∧
    (∀ e, (∀ m, e ≠ .invalid m) → (∀ i, e ≠ .notFound i) →
      (∀ i, e ≠ .expired i) → statusForSessionError e = 500) := by
  refine ⟨?_, ?_, ?_, fun m => rfl, fun i => rfl, fun i => rfl, ?_⟩
  · intro hh hrq
    simp [gateHandle, hexc, hh, hrq]
  · intro hh hr
    simp [gateHandle, hexc, hh, hr]
  · intro st1 e hh hv
    simp only [gateHandle, hexc, Bool.false_eq_true, if_false, hh]
    split
    · next st2 e2 heq =>
      rw [hv] at heq
      injection heq with h1 h2
      injection h2 with h3
      rw [h1, h3]
    · next st2 s2 heq =>
      rw [hv] at heq
      injection heq with _ h2
      exact absurd h2 (by simp)
  · intro e h1 h2 h3
    cases e with
    | invalid m => exact absurd rfl (h1 m)
    | notFound i => exact absurd rfl (h2 i)
    | expired i => exact absurd rfl (h3 i)
    | generation => rfl
    | storage op => rfl
    | concurrency => rfl

/-- Witness for `gateHandle_contract`: a required-session gate rejects a
request with no session header with status 400. -/
theorem gateHandle_contract_witness :
    gateHandle ⟨true, [], "Mcp-Session-Id"⟩ [] 0 0 "/mcp" false "" =
      ([], .rejectMissingHeader 400) := by
  exact (gateHandle_contract ⟨true, [], "Mcp-Session-Id"⟩ [] 0 0 "/mcp" ""
    (by decide)).1 rfl rfl

/-! ## Pointer-level store model (aliasing of `map[string]*Session`)

`MemoryStore` holds `*Session` pointers. To settle the aliasing claim the
heap is explicit: `heap` maps references to records, `tbl` is the internal
map from id to reference. `Get` returns the stored reference itself;
`List` dereferences and returns record values (the source builds
`sessionCopy := *session`). -/

structure PtrState where
  heap : List (Nat × SessionR)
  tbl : List (String × Nat)
deriving DecidableEq

/-- Dereference a heap reference. -/
def heapGet (h : List (Nat × SessionR)) (r : Nat) : Option SessionR :=
  (h.find? (fun q => q.1 == r)).map (·.2)

/-- In-place mutation of the record a reference points to. -/
def heapSet (h : List (Nat × SessionR)) (r : Nat) (s : SessionR) :
    List (Nat × SessionR) :=
  h.map (fun q => if q.1 == r then (r, s) else q)

/-- `MemoryStore.Get`, pointer level: returns the stored reference itself
(a live alias), not a copy of the record. -/
def ptrGet (st : PtrState) (k : String) : Option Nat :=
  (st.tbl.find? (fun p => p.1 == k)).map (·.2)

/-- `MemoryStore.List`, pointer level: dereferences every entry and returns
independent record values (`sessionCopy := *session`), exposing no
reference. -/
def ptrList (st : PtrState) : List SessionR :=
  st.tbl.filterMap (fun p => heapGet st.heap p.2)

/-- `MemoryStore.Set`, pointer level: map assignment of a reference. -/
def ptrSet (st : PtrState) (k : String) (r : Nat) : PtrState :=
  { st with tbl := (k, r) :: st.tbl.filter (fun p => !(p.1 == k)) }

/-- `Session.Refresh` performed through a reference obtained from `Get`:
mutates the pointed-to record in the heap; the store table is untouched. -/
def refreshAt (st : PtrState) (r : Nat) (now timeout : Nat) : PtrState :=
  match heapGet st.heap r with
  | none => st
  | some s => { st with heap := heapSet st.heap r (sessionRefresh s now timeout) }

theorem heapGet_heapSet_self {h : List (Nat × SessionR)} {r : Nat}
    {s : SessionR} (hs : heapGet h r = some s) (v : SessionR) :
    heapGet (heapSet h r v) r = some v := by
  induction h with
  | nil => simp [heapGet] at hs
  | cons q rest ih =>
    obtain ⟨rq, sq⟩ := q
    by_cases hq : rq = r
    · subst hq
      simp [heapGet, heapSet, List.find?_cons]
    · have hs' : heapGet rest r = some s := by
        simpa [heapGet, List.find?_cons, hq] using hs
      have hrec := ih hs'
      simp only [heapSet, List.map_cons]
      rw [if_neg (by simp [hq])]
      simpa [heapGet, heapSet, List.find?_cons, hq] using hrec

theorem tblFind_mem (l : List (String × Nat)) (k : String) (r : Nat)
    (h : (l.find? (fun p => p.1 == k)).map (·.2) = some r) : (k, r) ∈ l := by
  induction l with
  | nil => simp at h
  | cons q rest ih =>
    obtain ⟨kq, rq⟩ := q
    by_cases hk : kq = k
    · subst hk
      simp [List.find?_cons] at h
      rw [← h]
      exact List.mem_cons_self _ _
    · have hb : ((kq, rq).1 == k) = false := by simp [hk]
      simp only [List.find?_cons, hb] at h
      exact List.mem_cons_of_mem _ (ih h)

theorem tbl_mem_of_ptrGet {st : PtrState} {k : String} {r : Nat}
    (h : ptrGet st k = some r) : (k, r) ∈ st.tbl :=
  tblFind_mem st.tbl k r h

/-- C10: `Get` returns the stored record reference itself while `List`
returns dereferenced copies; hence the timestamp mutation done by
`Session.Refresh` during `RefreshSession` is visible through the stored
reference immediately, before and independently of the `Set` write-back,
while a `List` snapshot taken before the mutation still holds the old
record value. -/
theorem ptrGet_aliasing (st : PtrState) (k : String) (r : Nat) (s : SessionR)
    (now timeout : Nat)
    (htbl : ptrGet st k = some r)
    (hheap : heapGet st.heap r = some s) :
    ptrGet (refreshAt st r now timeout) k = some r ∧
    heapGet (refreshAt st r now timeout).heap r =
      some (sessionRefresh s now timeout) ∧
    ptrGet (ptrSet (refreshAt st r now timeout) k r) k = some r ∧
    heapGet (ptrSet (refreshAt st r now timeout) k r).heap r =
      some (sessionRefresh s now timeout) ∧
    s ∈ ptrList st := by
  have hra : refreshAt st r now timeout =
      { st with heap := heapSet st.heap r (sessionRefresh s now timeout) } := by
    unfold refreshAt
    rw [hheap]
  have hnew : heapGet (refreshAt st r now timeout).heap r =
      some (sessionRefresh s now timeout) := by
    rw [hra]
    exact heapGet_heapSet_self hheap _
  refine ⟨?_, hnew, ?_, ?_, ?_⟩
  · rw [hra]
    exact htbl
  · simp [ptrGet, ptrSet, List.find?_cons]
  · exact hnew
  · exact List.mem_filterMap.mpr ⟨(k, r), tbl_mem_of_ptrGet htbl, hheap⟩

/-- Witness for `ptrGet_aliasing` on a one-entry heap and table. -/
theorem ptrGet_aliasing_witness :
    ptrGet (refreshAt ⟨[(0, ⟨"k", 0, 0, 10, "a", "u"⟩)], [("k", 0)]⟩ 0 40 60)
      "k" = some 0 ∧
    heapGet (refreshAt ⟨[(0, ⟨"k", 0, 0, 10, "a", "u"⟩)], [("k", 0)]⟩
        0 40 60).heap 0 =
      some (sessionRefresh ⟨"k", 0, 0, 10, "a", "u"⟩ 40 60) ∧
    ptrGet (ptrSet (refreshAt ⟨[(0, ⟨"k", 0, 0, 10, "a", "u"⟩)], [("k", 0)]⟩
        0 40 60) "k" 0) "k" = some 0 ∧
    heapGet (ptrSet (refreshAt ⟨[(0, ⟨"k", 0, 0, 10, "a", "u"⟩)], [("k", 0)]⟩
        0 40 60) "k" 0).heap 0 =
      some (sessionRefresh ⟨"k", 0, 0, 10, "a", "u"⟩ 40 60) ∧
    (⟨"k", 0, 0, 10, "a", "u"⟩ : SessionR) ∈
      ptrList ⟨[(0, ⟨"k", 0, 0, 10, "a", "u"⟩)], [("k", 0)]⟩ := by
  exact ptrGet_aliasing _ "k" 0 ⟨"k", 0, 0, 10, "a", "u"⟩ 40 60
    (by decide) (by decide)

/-! ## JSON-RPC error codes (internal/jsonrpc/jsonrpc.go) -/

def parseErrorCode : Int := -32700
def invalidRequestCode : Int := -32600
def methodNotFoundCode : Int := -32601
def invalidParamsCode : Int := -32602
def internalErrorCode : Int := -32603

/-! ## Protocol dispatcher (the mcp package Handler) -/

/-- The `{name, arguments}` payload of a tool call, with the raw JSON
arguments kept opaque. -/
structure ToolCallParams where
  name : String
  arguments : String
deriving DecidableEq

instance {ε α : Type} [DecidableEq ε] [DecidableEq α] :
    DecidableEq (Except ε α) := fun a b =>
  match a, b with
  | .error e1, .error e2 =>
    if h : e1 = e2 then .isTrue (by rw [h])
    else .isFalse (by intro hc; injection hc with h2; exact h h2)
  | .error _, .ok _ => .isFalse (by intro hc; exact Except.noConfusion hc)
  | .ok _, .error _ => .isFalse (by intro hc; exact Except.noConfusion hc)
  | .ok a1, .ok a2 =>
    if h : a1 = a2 then .isTrue (by rw [h])
    else .isFalse (by intro hc; injection hc with h2; exact h h2)

/-- A parsed JSON-RPC request: correlation id, method name and the outcome of
unmarshalling its params as `ToolCallParams` (the error side carries the Go
decode message). -/
structure RpcRequest where
  rid : Nat
  method : String
  paramsParse : Except String ToolCallParams
deriving DecidableEq

/-- The collaborators `handleToolExecution` consults: whether the HTTP request
is present in the context, and the outcome of `toolRegistry.Call` (error
message or raw result). -/
structure ToolEnv where
  hasHttpReq : Bool
  toolResult : Except String String
deriving DecidableEq

/-- A JSON-RPC error object (code, message, optional data). -/
structure RpcErrorE where
  code : Int
  message : String
  data : Option String
deriving DecidableEq

/-- An envelope the handler writes back: `sendResponse` produces a result
envelope keyed by the request id, `sendError` an error envelope with no id;
the initialize and tools/list bodies are abstracted to their own shapes. -/
inductive Written where
  | resultEnvelope (rid : Nat) (result : String)
  | errEnvelope (e : RpcErrorE)
  | initOut (rid : Nat)
  | toolsListOut (rid : Nat)
deriving DecidableEq

/-- `Handler.handleToolExecution`: parse `{name, arguments}` from params
(failure → InvalidParams envelope), fetch the HTTP request from the context
(failure → InternalError envelope), call the registry with the header-derived
credentials threaded through the context, and wrap the outcome (tool error →
InternalError envelope carrying the tool message as data; success → result
envelope). -/
def handleToolExecution (req : RpcRequest) (env : ToolEnv) : Written :=
  match req.paramsParse with
  | .error m => .errEnvelope ⟨invalidParamsCode, "Invalid parameters", some m⟩
  | .ok p =>
    if !env.hasHttpReq then
      .errEnvelope
        ⟨internalErrorCode, "Failed to get HTTP request from context", none⟩
    else
      match env.toolResult with
      | .error em => .errEnvelope
          ⟨internalErrorCode, "Failed to execute tool " ++ p.name, some em⟩
      | .ok res => .resultEnvelope req.rid res

/-- `Handler.handleRequest`: the method switch. In the Go source the
`case "tools/execute":` arm has an empty body and no fallthrough statement,
so for that method the switch matches, runs no statement, and the handler
returns without writing anything — modelled as `none`. -/
def handleRequest (req : RpcRequest) (env : ToolEnv) : Option Written :=
  if req.method = "initialize" then some (.initOut req.rid)
  else if req.method = "tools/execute" then none
  else if req.method = "tools/call" then some (handleToolExecution req env)
  else some (.errEnvelope
    ⟨methodNotFoundCode, "Method not found: " ++ req.method, none⟩)

inductive HttpMethod where
  | get | post | options | other
deriving DecidableEq

/-- The transport-level view of one inbound request to `Handler.Handle`:
HTTP method, whether Content-Type contains application/json, whether Accept
contains text/event-stream, whether reading the body succeeded, and the
outcome of `json.Unmarshal` of the body as a JSON-RPC request. -/
structure HandleReq where
  method : HttpMethod
  contentTypeJson : Bool
  acceptSse : Bool
  bodyReadOk : Bool
  rpcParse : Except String RpcRequest
deriving DecidableEq

/-- What `Handler.Handle` sends back on the wire: a CORS preflight answer, a
plain-text `http.Error` (message and status), a buffered JSON envelope, an
envelope framed as one SSE data event, entry into the GET keep-alive stream
loop, or nothing at all. -/
inductive HandleOut where
  | preflightOk
  | httpError (msg : String) (status : Nat)
  | direct (wr : Written)
  | sse (wr : Written)
  | sseStream
  | noResponse
deriving DecidableEq

/-- Whether an output is a JSON-RPC envelope write (buffered or SSE-framed),
as opposed to a bare transport-level answer or silence. -/
def isEnvelopeWrite : HandleOut → Bool
  | .direct _ => true
  | .sse _ => true
  | _ => false

/-- `Handler.Handle`: OPTIONS preflight first; then POST with JSON
content-type (body read failure and unmarshal failure each answered with a
plain `http.Error` 400; `initialize` and `tools/list` intercepted as direct
buffered responses; other methods routed through `handleRequest`, serialized
as an SSE event when the client negotiated streaming); then GET with
streaming negotiation (the keep-alive loop); anything else is answered
"Method not allowed". -/
def handleHttp (r : HandleReq) (env : ToolEnv) : HandleOut :=
  if r.method = .options then .preflightOk
  else if r.method = .post ∧ r.contentTypeJson then
    if !r.bodyReadOk then .httpError "Failed to read request body" 400
    else
      match r.rpcParse with
      | .error _ => .httpError "Invalid JSON-RPC request" 400
      | .ok req =>
        if req.method = "initialize" then .direct (.initOut req.rid)
        else if req.method = "tools/list" then .direct (.toolsListOut req.rid)
        else
          match handleRequest req env with
          | some wr => if r.acceptSse then .sse wr else .direct wr
          | none => .noResponse
  else if r.method = .get ∧ r.acceptSse then .sseStream
  else .httpError "Method not allowed" 405

/-- C1 (code bug): a `tools/execute` request hits the empty switch arm and no
response envelope is written at all, while the identical `tools/call` request
is answered — the deprecated alias does not behave like `tools/call`. -/
theorem toolsExecute_writes_no_response :
    handleRequest ⟨1, "tools/execute", .ok ⟨"weather", "city London"⟩⟩
      ⟨true, .ok "sunny"⟩ = none ∧
    handleRequest ⟨1, "tools/call", .ok ⟨"weather", "city London"⟩⟩
      ⟨true, .ok "sunny"⟩ = some (.resultEnvelope 1 "sunny") ∧
    handleHttp
      ⟨.post, true, false, true,
       .ok ⟨1, "tools/execute", .ok ⟨"weather", "city London"⟩⟩⟩
      ⟨true, .ok "sunny"⟩ = .noResponse := by
  refine ⟨rfl, rfl, rfl⟩

/-- Counterexample to C6: a POST whose body fails to decode is answered with
the bare transport-level `http.Error` 400, which is not a JSON-RPC envelope
of any kind — in particular not a parse-error envelope. -/
theorem parse_failure_bare_transport_error :
    handleHttp
      ⟨.post, true, false, true, .error "unexpected end of JSON input"⟩
      ⟨true, .ok "sunny"⟩ = .httpError "Invalid JSON-RPC request" 400 ∧
    isEnvelopeWrite
      (handleHttp
        ⟨.post, true, false, true, .error "unexpected end of JSON input"⟩
        ⟨true, .ok "sunny"⟩) = false := by
  refine ⟨rfl, rfl⟩

/-- C6 (amended): for every one-shot POST with JSON content type whose body
is not parseable as a JSON-RPC envelope, the dispatcher responds with the
plain-text client error `http.Error 400 "Invalid JSON-RPC request"` — a bare
transport-level failure, never any JSON-RPC envelope. -/
theorem malformed_body_http_400 (acceptSse : Bool) (m : String)
    (env : ToolEnv) :
    handleHttp ⟨.post, true, acceptSse, true, .error m⟩ env =
      .httpError "Invalid JSON-RPC request" 400 ∧
    isEnvelopeWrite (handleHttp ⟨.post, true, acceptSse, true, .error m⟩ env)
      = false := by
  refine ⟨rfl, rfl⟩

/-! ## The GET streaming loop of `Handler.Handle` -/

/-- Items a streaming connection can carry: the keep-alive comment the loop
writes, a handshake comment line, or a data-framed event (the latter two are
expressible but never produced by this handler). -/
inductive SseItem where
  | keepAliveComment
  | handshakeComment
  | dataEvent (payload : String)
deriving DecidableEq

/-- What the select loop observes at each iteration: context cancellation, or
a 30-second timer tick whose keep-alive write succeeds or fails. -/
inductive TickSignal where
  | disconnect
  | tick (writeOk : Bool)
deriving DecidableEq

/-- The keep-alive period hard-coded in the loop: `time.After(30 * time.Second)`. -/
def keepAliveSeconds : Nat := 30

/-- The GET/SSE branch of `Handler.Handle`: an endless select that returns on
context cancellation, writes `:keep-alive` on each timer tick, and returns on
a write failure. The list of emitted items as a function of the observed
schedule; nothing is emitted on open before the first tick. -/
def sseLoop : List TickSignal → List SseItem
  | [] => []
  | .disconnect :: _ => []
  | .tick false :: _ => []
  | .tick true :: rest => .keepAliveComment :: sseLoop rest

/-- Counterexample to C7: on a streaming GET the first thing ever emitted is
a keep-alive comment after the first 30-second tick — there is no handshake
comment and no capability push on open. -/
theorem sse_open_emits_no_handshake :
    sseLoop [.tick true, .tick true] =
      [.keepAliveComment, .keepAliveComment] ∧
    (sseLoop [.tick true, .tick true]).head? ≠ some .handshakeComment ∧
    keepAliveSeconds = 30 := by
  refine ⟨rfl, by decide, rfl⟩

/-- C7 (amended): a GET connection negotiated as streaming only ever emits
keep-alive comment lines, one per tick of the fixed 30-second timer; the loop
ends at transport-level cancellation or at a failed write, emitting nothing
further. -/
theorem sseLoop_only_keepalives (sched : List TickSignal) :
    (sseLoop sched).all (fun i => i == SseItem.keepAliveComment) = true ∧
    sseLoop (TickSignal.disconnect :: sched) = [] ∧
    sseLoop (TickSignal.tick false :: sched) = [] ∧
    sseLoop (TickSignal.tick true :: sched) =
      SseItem.keepAliveComment :: sseLoop sched := by
  refine ⟨?_, rfl, rfl, rfl⟩
  induction sched with
  | nil => rfl
  | cons t rest ih =>
    cases t with
    | disconnect => rfl
    | tick ok =>
      cases ok with
      | false => rfl
      | true => simpa [sseLoop] using ih

/-! ## Cleanup service (internal/session, CleanupService) -/

/-- The `CleanupService` state relevant to interval handling: the configured
`interval` field, whether the service is running, and the period of the
ticker owned by the running loop (`time.NewTicker(c.interval)` is evaluated
once when the goroutine starts; `none` when no loop is running). -/
structure CleanupSvc where
  interval : Nat
  running : Bool
  stopChClosed : Bool
  tickerInterval : Option Nat
deriving DecidableEq

/-- `CleanupService.Start`: a no-op when already running; otherwise sets
`running` and spawns the loop. The ticker of the spawned loop captures the
interval configured at this moment — but only if the stop channel is still
open: after a `Stop`, `stopCh` is already closed (it is created once in
`NewCleanupService` and never recreated), so the select of the spawned loop
finds it ready at its first iteration and the loop returns before any tick
fires (and then double-closes the already-closed `stoppedCh`); such a loop
has no tick period, modelled as `none`. -/
def svcStart (c : CleanupSvc) : CleanupSvc :=
  if c.running then c
  else
    { c with
      running := true
      tickerInterval := if c.stopChClosed then none else some c.interval }

/-- `CleanupService.Stop`: a no-op when not running; otherwise executes
`close(c.stopCh)` — permanent, as the channel is never recreated — and joins
the loop, whose ticker is stopped. -/
def svcStop (c : CleanupSvc) : CleanupSvc :=
  if c.running then
    { c with running := false, stopChClosed := true, tickerInterval := none }
  else c

/-- `CleanupService.SetInterval`: writes the `interval` field only; the
source comment reads `(requires restart to take effect)` and `run` never
re-reads the field nor resets its ticker. -/
def svcSetInterval (c : CleanupSvc) (d : Nat) : CleanupSvc :=
  { c with interval := d }

/-- The period at which the next tick of a running loop fires: the period of
the ticker the loop created at start, `none` when no loop ticks. -/
def svcNextTickPeriod (c : CleanupSvc) : Option Nat := c.tickerInterval

/-- Counterexample to C9: on a running service started with interval 5,
`SetInterval 7` leaves every subsequent tick at period 5. -/
theorem setInterval_running_unchanged :
    svcNextTickPeriod (svcSetInterval (svcStart ⟨5, false, false, none⟩) 7) =
      some 5 ∧ (5 : Nat) ≠ 7 := by
  refine ⟨rfl, by decide⟩

/-- C9 (amended): `SetInterval d` only updates the stored configuration — the
ticker of an already-running sweep loop is untouched, so its subsequent
ticks keep the interval captured at `Start`. The new interval is picked up
only by a first `Start` of a not-running service that has never been
stopped; after a `Stop` permanently closes the one-shot stop channel, a
restarted loop exits before any tick fires, so `d` never governs a tick of a
restarted service. -/
theorem svcSetInterval_requires_restart (c : CleanupSvc) (d : Nat) :
    (svcSetInterval c d).tickerInterval = c.tickerInterval ∧
    (svcSetInterval c d).interval = d ∧
    (c.running = false → c.stopChClosed = false →
      svcNextTickPeriod (svcStart (svcSetInterval c d)) = some d) ∧
    (c.running = true →
      svcNextTickPeriod (svcStart (svcStop (svcSetInterval c d))) = none) := by
  refine ⟨rfl, rfl, ?_, ?_⟩
  · intro hr hs
    simp [svcSetInterval, svcStart, svcNextTickPeriod, hr, hs]
  · intro hr
    simp [svcSetInterval, svcStop, svcStart, svcNextTickPeriod, hr]

/-- Witness for `svcSetInterval_requires_restart`: on a service running with
ticker period 5, `SetInterval 7` leaves the ticker at 5, and after stop plus
restart no tick fires at all. -/
theorem svcSetInterval_requires_restart_witness :
    (svcSetInterval ⟨5, true, false, some 5⟩ 7).tickerInterval = some 5 ∧
    svcNextTickPeriod
      (svcStart (svcStop (svcSetInterval ⟨5, true, false, some 5⟩ 7))) =
      none := by
  exact ⟨(svcSetInterval_requires_restart ⟨5, true, false, some 5⟩ 7).1,
    (svcSetInterval_requires_restart ⟨5, true, false, some 5⟩ 7).2.2.2 rfl⟩
